import Mathlib

/-!
Shallow embedding of the `trading-lab` utility modules
(`src/utils/paths.py`, `src/utils/config.py`, `src/utils/data_loader.py`,
`src/utils/model_loader.py`) and proofs of the specification claims.

Filesystem paths are modelled as lists of components; the filesystem itself
is an abstract structure providing existence tests and `resolve`
(pathlib's `Path.resolve`, which we treat as an uninterpreted function on
paths, since the code never inspects its output).
-/

namespace TradingLab

/-- A filesystem path, as a list of components (`root / "a" / "b"` is
`root ++ ["a", "b"]`). -/
abbrev Path := List String

/-- The parent directory, as `pathlib.Path.parent`: drop the last component
(the parent of the empty/root path is itself, as in pathlib). -/
def Path.parent (p : Path) : Path := p.dropLast

/-- Abstract filesystem: which paths exist, and what `Path.resolve()`
returns for a path. -/
structure FS where
  fexists : Path → Bool
  resolve : Path → Path

/-! ### `paths.get_project_root` (src/utils/paths.py, lines 12-44) -/

/-- One iteration of the marker test of `get_project_root`: the directory
contains a `requirements.txt` file, a `data/raw` directory, a `models`
directory, or a `src` directory. -/
def hasMarker (fs : FS) (p : Path) : Bool :=
  fs.fexists (p ++ ["requirements.txt"]) ||
  fs.fexists (p ++ ["data", "raw"]) ||
  fs.fexists (p ++ ["models"]) ||
  fs.fexists (p ++ ["src"])

/-- The five directories examined by `get_project_root`, in source order:
the start directory and its first four ancestors. -/
def rootCandidates (start : Path) : List Path :=
  [start, start.parent, start.parent.parent,
   start.parent.parent.parent, start.parent.parent.parent.parent]

/-- Embedding of `get_project_root`: return the resolved first candidate
containing a marker, else the resolved start directory. -/
def get_project_root (fs : FS) (start : Path) : Path :=
  match (rootCandidates start).find? (hasMarker fs) with
  | some p => fs.resolve p
  | none => fs.resolve start

/-! ### Configuration values (src/utils/config.py)

YAML/config values: strings, integers, decimal numbers and nested
mappings. A mapping is an association list of string keys (Python dicts
preserve insertion order and have unique keys). A decimal `m ×
10^(-e)` such as `0.05` is `YVal.dec 5 2`; the numeric interpretation is
irrelevant to every claim, the constant only has to be reproduced
faithfully. -/
inductive YVal where
  | s : String → YVal
  | i : Int → YVal
  | dec : Int → Nat → YVal
  | map : List (String × YVal) → YVal

/-- A configuration mapping (a Python `Dict[str, Any]` of YAML values). -/
abbrev ConfigMap := List (String × YVal)

/-- Lookup of `d[key]` / the `key in d` test: first binding of the key. -/
def lookupKey (m : ConfigMap) (k : String) : Option YVal :=
  match m with
  | [] => none
  | (k', v) :: rest => if k' = k then some v else lookupKey rest k

/-- Python dict assignment `d[key] = value`: overwrite the binding in
place if the key is present, otherwise append a new binding. -/
def setKey (m : ConfigMap) (k : String) (v : YVal) : ConfigMap :=
  match m with
  | [] => [(k, v)]
  | (k', v') :: rest =>
    if k' = k then (k', v) :: rest else (k', v') :: setKey rest k v

/-- The keys of a mapping, in order. -/
def keysOf (m : ConfigMap) : List String := m.map Prod.fst

/-- The test `key in result and isinstance(result[key], dict) and
isinstance(value, dict)` of `_merge_config`: the two mappings to merge
recursively, when the default binding and the user value are both
mappings. -/
def bothMaps : Option YVal → YVal → Option (ConfigMap × ConfigMap)
  | some (.map dm), .map um => some (dm, um)
  | _, _ => none

theorem bothMaps_some {o : Option YVal} {v : YVal} {dm um : ConfigMap}
    (h : bothMaps o v = some (dm, um)) : o = some (.map dm) ∧ v = .map um := by
  match o, v with
  | some (.map a), .map b => simp [bothMaps] at h; exact ⟨by simp [h.1], by simp [h.2]⟩
  | none, v => simp [bothMaps] at h
  | some (.s a), v => simp [bothMaps] at h
  | some (.i a), v => simp [bothMaps] at h
  | some (.dec a b), v => simp [bothMaps] at h
  | some (.map a), .s b => simp [bothMaps] at h
  | some (.map a), .i b => simp [bothMaps] at h
  | some (.map a), .dec b c => simp [bothMaps] at h

/-- Embedding of `_merge_config` (src/utils/config.py, lines 120-130):
start from a copy of `default` and fold the `user` items over it; a key
whose value is a mapping on both sides is merged recursively, any other
user key overwrites. -/
def mergeConfig (d : ConfigMap) : ConfigMap → ConfigMap
  | [] => d
  | (k, v) :: rest =>
    let newV : YVal :=
      match hbm : bothMaps (lookupKey d k) v with
      | some (dm, um) => .map (mergeConfig dm um)
      | none => v
    mergeConfig (setKey d k newV) rest
termination_by u => sizeOf u
decreasing_by
  · have hv := (bothMaps_some hbm).2
    subst hv
    simp only [Prod.mk.sizeOf_spec, List.cons.sizeOf_spec, YVal.map.sizeOf_spec]
    omega
  · simp only [Prod.mk.sizeOf_spec, List.cons.sizeOf_spec]
    omega

/-- Embedding of `_get_default_config` (src/utils/config.py, lines
91-117), with the literal constants of the source. -/
def defaultConfig : ConfigMap :=
  [("trading", .map
      [("symbol", .s "SPY"),
       ("timeframe", .s "D1"),
       ("lookback_days", .i 5000)]),
   ("features", .map
      [("horizon_days", .i 5),
       ("rsi_period", .i 14),
       ("ema_short", .i 20),
       ("ema_long", .i 50),
       ("atr_period", .i 14)]),
   ("model", .map
      [("n_estimators", .i 100),
       ("learning_rate", .dec 5 2),
       ("train_ratio", .dec 8 1),
       ("random_state", .i 42)]),
   ("backtest", .map
      [("initial_capital", .dec 1000 1),
       ("commission_rate", .dec 1 3),
       ("slippage", .dec 1 4)])]

/-! ### `config.load_config` (src/utils/config.py, lines 13-59)

The environment packs the pieces of the outside world the function
touches: the filesystem, the current working directory (for
`get_project_root()`), and the YAML parser. `parse p` is the result of
`yaml.safe_load` on the file at `p`: `none` when the file is empty
(Python `None`, turned into `{}` by `or {}`), `some m` when it parses to
the mapping `m`. A file whose parse raises is outside the model (the
exception propagates; no claim is about that case). -/
structure ConfigEnv extends FS where
  cwd : Path
  parse : Path → Option ConfigMap

/-- The three candidate config locations probed by `load_config` when no
path is supplied, in source order. -/
def configCandidates (root : Path) : List Path :=
  [root ++ ["config.yaml"],
   root ++ ["config", "config.yaml"],
   root ++ ["config", "config.example.yaml"]]

/-- Embedding of `load_config`: resolve the config path (probing the
three candidates when none is given), return the defaults when no file
is found or the explicit path does not exist, otherwise parse
(`or {}` for an empty file) and merge over the defaults. -/
def load_config (env : ConfigEnv) (config_path : Option Path) : ConfigMap :=
  match
    (match config_path with
     | some p => some p
     | none =>
       let root := get_project_root env.toFS env.cwd
       (configCandidates root).find? env.fexists)
  with
  | none => defaultConfig
  | some p =>
    if env.fexists p then
      mergeConfig defaultConfig ((env.parse p).getD [])
    else defaultConfig

/-! ### `config.get_config_value` (src/utils/config.py, lines 62-88) -/

/-- The loop of `get_config_value`: walk the split keys; step into a
mapping when the key is present, return the default the moment the key
is absent or the current value is not a mapping. -/
def walkKeys (default : YVal) : List String → YVal → YVal
  | [], v => v
  | k :: rest, v =>
    match v with
    | .map m =>
      match lookupKey m k with
      | some v' => walkKeys default rest v'
      | none => default
    | _ => default

/-- Split a list of characters on every occurrence of `c`, as Python's
`str.split` with a one-character separator: adjacent separators yield
empty pieces and the empty string yields one empty piece. -/
def splitOnChar (c : Char) : List Char → List (List Char)
  | [] => [[]]
  | x :: rest =>
    let r := splitOnChar c rest
    if x = c then [] :: r
    else
      match r with
      | [] => [[x]]
      | h :: t => (x :: h) :: t

/-- The `key_path.split('.')` of `get_config_value`. -/
def splitDot (s : String) : List String :=
  (splitOnChar '.' s.toList).map String.mk

/-- Embedding of `get_config_value`: split the dot-path and walk the
nested mappings starting from the config dictionary. -/
def get_config_value (config : ConfigMap) (key_path : String) (default : YVal) : YVal :=
  walkKeys default (splitDot key_path) (.map config)

/-! ### Data loading (src/utils/data_loader.py)

A DataFrame is a header (column names) plus rows of cells, one cell per
column. `pd.to_datetime(col, utc=True)` is modelled by an abstract
conversion `conv : Cell → Int` giving the instant of each cell, wrapped
in the `tsUTC` constructor, which marks a timezone-aware timestamp.
`sort_values` compares the cells of the sort column; in every flow of
this file the sorted column holds `tsUTC` timestamps, whose comparison
key is the instant (`cellKey`). -/
inductive Cell where
  | s : String → Cell
  | n : Int → Cell
  | tsUTC : Int → Cell

/-- The sort key pandas compares cells by; on the timestamp cells that
actually reach `sort_values` in this code it is the instant. -/
def cellKey : Cell → Int
  | .s _ => 0
  | .n k => k
  | .tsUTC t => t

/-- A parsed CSV table: header and rows. -/
structure DF where
  cols : List String
  rows : List (List Cell)

/-- Well-formedness of a parsed CSV: every row has one cell per column. -/
def DF.WF (df : DF) : Prop := ∀ r ∈ df.rows, r.length = df.cols.length

/-- The `c in df.columns` test. -/
def DF.hasCol (df : DF) (c : String) : Bool := df.cols.contains c

/-- Position of column `c` (first occurrence). -/
def DF.colIdx (df : DF) (c : String) : Nat := df.cols.indexOf c

/-- The cell of row `r` in column position `i`. -/
def cellAt (r : List Cell) (i : Nat) : Cell := r.getD i (.n 0)

/-- Column assignment `df[c] = pd.to_datetime(df[c], utc=True)`: replace
every cell of column `c` by its timezone-aware converted timestamp. -/
def DF.convertCol (df : DF) (conv : Cell → Int) (c : String) : DF :=
  let i := df.colIdx c
  { df with rows := df.rows.map (fun r => r.set i (.tsUTC (conv (cellAt r i)))) }

/-- The `df.rename(columns={old: new})` relabelling (values untouched). -/
def DF.renameCol (df : DF) (old new : String) : DF :=
  { df with cols := df.cols.map (fun x => if x = old then new else x) }

/-- Errors of the modelled pandas pipelines: `KeyError` from sorting on
an absent column, and the `ValueError` of the column validation,
carrying the list of missing column names. -/
inductive PdError where
  | keyError : String → PdError
  | missingColumns : List String → PdError

/-- The ordering `sort_values` compares two rows by: their cells in
column position `i`. -/
def rowLe (i : Nat) (r1 r2 : List Cell) : Prop :=
  cellKey (cellAt r1 i) ≤ cellKey (cellAt r2 i)

instance (i : Nat) : DecidableRel (rowLe i) := fun r1 r2 => Int.decLe _ _

instance (i : Nat) : IsTotal (List Cell) (rowLe i) := ⟨fun a b => Int.le_total _ _⟩

instance (i : Nat) : IsTrans (List Cell) (rowLe i) :=
  ⟨fun a b c h1 h2 => le_trans h1 h2⟩

/-- Embedding of `df.sort_values(c)`: raises `KeyError` when the column
is absent, otherwise sorts the rows ascending by the column's cells. -/
def DF.sortValues (df : DF) (c : String) : Except PdError DF :=
  if df.hasCol c then
    .ok { df with rows := List.insertionSort (rowLe (df.colIdx c)) df.rows }
  else .error (.keyError c)

/-- The time-column normalization of `load_raw_data` (lines 62-69):
convert `time` if present, else convert and rename `date`, else `Date`,
else leave the frame unchanged. -/
def normalizeTime (conv : Cell → Int) (df : DF) : DF :=
  if df.hasCol "time" then df.convertCol conv "time"
  else if df.hasCol "date" then (df.convertCol conv "date").renameCol "date" "time"
  else if df.hasCol "Date" then (df.convertCol conv "Date").renameCol "Date" "time"
  else df

/-- The required columns of `load_raw_data`, in source order. -/
def requiredCols : List String := ["time", "open", "high", "low", "close"]

/-- Embedding of the post-parse part of `load_raw_data` (lines 62-80):
normalize the time column, sort by `time`, then validate the required
columns, raising `ValueError` with the missing ones. -/
def load_raw_data_frame (conv : Cell → Int) (df : DF) : Except PdError DF := do
  let df1 := normalizeTime conv df
  let df2 ← df1.sortValues "time"
  let missing := requiredCols.filter (fun c => ¬ df2.hasCol c)
  if missing.isEmpty then pure df2 else throw (.missingColumns missing)

/-- Embedding of the post-parse part of `load_processed_data` (lines
109-118): convert `time` when present, then sort by `time` (the sort is
unconditional in the source). -/
def load_processed_frame (conv : Cell → Int) (df : DF) : Except PdError DF := do
  let df1 := if df.hasCol "time" then df.convertCol conv "time" else df
  df1.sortValues "time"

/-! ### `model_loader.load_trained_model` (src/utils/model_loader.py, lines 14-103)

Model objects are opaque: the embedding is parameterized over their type
`M`. The environment carries the `xgboost_available` capability flag and
the outcomes of the two deserializers: `xgbLoad p = some m` when the
booster load of the file at `p` succeeds with model `m`, `none` when it
raises (the `except` clause swallows it); likewise `joblibLoad`. -/
structure ModelEnv (M : Type) extends FS where
  cwd : Path
  xgboostAvailable : Bool
  xgbLoad : Path → Option M
  joblibLoad : Path → Option M

/-- Index of the last `'.'` of a list of characters, if any. -/
def lastDotIdx (cs : List Char) : Option Nat :=
  ((List.range cs.length).filter (fun j => cs.getD j ' ' = '.')).getLast?

/-- The extension of a file name, as `pathlib` computes it: the part from
the last dot on, provided that dot is neither leading nor trailing. -/
def nameSuffix (name : String) : String :=
  let cs := name.toList
  match lastDotIdx cs with
  | some j => if 0 < j ∧ j + 1 < cs.length then String.mk (cs.drop j) else ""
  | none => ""

/-- The `path.suffix` of `pathlib`: the extension of the last component. -/
def Path.suffix (p : Path) : String := nameSuffix (p.getLastD "")

/-- Embedding of `paths.resolve_model_path` (src/utils/paths.py, lines
67-83): `(projectRoot / "models" / filename).resolve()`. -/
def resolve_model_path (fs : FS) (cwd : Path) (filename : String) : Path :=
  fs.resolve (get_project_root fs cwd ++ ["models", filename])

/-- The eight candidate locations `load_trained_model` builds when no
explicit path is supplied (lines 55-64), in source order. -/
def modelCandidates (fs : FS) (cwd : Path) (model_name : String) : List Path :=
  let root := get_project_root fs cwd
  [resolve_model_path fs cwd (model_name ++ ".pkl"),
   resolve_model_path fs cwd (model_name ++ ".json"),
   root ++ ["models", model_name ++ ".pkl"],
   root ++ ["models", model_name ++ ".json"],
   ["models", model_name ++ ".pkl"],
   ["models", model_name ++ ".json"],
   ["..", "models", model_name ++ ".pkl"],
   ["..", "models", model_name ++ ".json"]]

/-- The candidate walk of `load_trained_model` (lines 69-92): skip
non-existent paths; a `.json` candidate is skipped when xgboost is
unavailable or its booster load fails, and yields the model tagged
`"xgboost"` on success; a `.pkl` candidate is skipped when `joblib.load`
fails and yields the model tagged `"sklearn"` on success; any other
suffix is skipped. -/
def modelSearch {M : Type} (env : ModelEnv M) : List Path → Option (M × String)
  | [] => none
  | p :: rest =>
    if env.fexists p = false then modelSearch env rest
    else if Path.suffix p = ".json" then
      if env.xgboostAvailable = false then modelSearch env rest
      else
        match env.xgbLoad p with
        | some m => some (m, "xgboost")
        | none => modelSearch env rest
    else if Path.suffix p = ".pkl" then
      match env.joblibLoad p with
      | some m => some (m, "sklearn")
      | none => modelSearch env rest
    else modelSearch env rest

/-- The not-found error raised after exhausting all candidates, carrying
the two primary expected paths under the models directory that the
message enumerates. -/
inductive LoadError where
  | notFound : Path → Path → LoadError

/-- Embedding of `load_trained_model`: build the candidate list (exactly
`[model_path]` when one is supplied), walk it, and either return the
first successful load with its format tag or fail with the not-found
error enumerating the two primary expected paths. -/
def load_trained_model {M : Type} (env : ModelEnv M) (model_name : String)
    (model_path : Option Path) : Except LoadError (M × String) :=
  let possible_paths :=
    match model_path with
    | some p => [p]
    | none => modelCandidates env.toFS env.cwd model_name
  match modelSearch env possible_paths with
  | some res => .ok res
  | none =>
    let root := get_project_root env.toFS env.cwd
    .error (.notFound (root ++ ["models", model_name ++ ".pkl"])
                      (root ++ ["models", model_name ++ ".json"]))

/-- The time column of every row is a timezone-aware timestamp. -/
def DF.timeAware (df : DF) : Prop :=
  ∀ r ∈ df.rows, ∃ t, cellAt r (df.colIdx "time") = Cell.tsUTC t

/-- The rows are sorted ascending by the time column. -/
def DF.timeSorted (df : DF) : Prop :=
  df.rows.Sorted (rowLe (df.colIdx "time"))

/-! ### Helper lemmas on mappings and the merge -/

theorem lookupKey_setKey (m : ConfigMap) (k k' : String) (v : YVal) :
    lookupKey (setKey m k v) k' = if k = k' then some v else lookupKey m k' := by
  induction m with
  | nil =>
    by_cases h : k = k' <;> simp [setKey, lookupKey, h]
  | cons hd tl ih =>
    obtain ⟨k₁, v₁⟩ := hd
    by_cases h₁ : k₁ = k
    · subst h₁
      by_cases h₂ : k₁ = k' <;> simp [setKey, lookupKey, h₂]
    · by_cases h₂ : k₁ = k'
      · subst h₂
        have hne : ¬ k = k₁ := fun h => h₁ h.symm
        simp [setKey, lookupKey, h₁, hne]
      · simp [setKey, lookupKey, h₁, h₂, ih]

theorem mem_keysOf_setKey (m : ConfigMap) (k a : String) (v : YVal) :
    a ∈ keysOf (setKey m k v) ↔ a ∈ keysOf m ∨ a = k := by
  induction m with
  | nil => simp [setKey, keysOf]
  | cons hd tl ih =>
    obtain ⟨k₁, v₁⟩ := hd
    by_cases h₁ : k₁ = k <;> simp [setKey, keysOf, h₁] at ih ⊢ <;> tauto

theorem mergeConfig_nil (d : ConfigMap) : mergeConfig d [] = d := by
  simp [mergeConfig]

theorem lookupKey_mergeConfig_not_mem (u : ConfigMap) (d : ConfigMap) (k : String)
    (hk : k ∉ keysOf u) :
    lookupKey (mergeConfig d u) k = lookupKey d k := by
  induction u generalizing d with
  | nil => simp [mergeConfig]
  | cons hd tl ih =>
    obtain ⟨k₁, v⟩ := hd
    simp only [keysOf, List.map_cons, List.mem_cons] at hk
    push_neg at hk
    rw [mergeConfig, ih _ hk.2, lookupKey_setKey]
    have hne : ¬ k₁ = k := fun h => hk.1 h.symm
    simp [hne]

theorem lookupKey_mergeConfig_both_maps (u : ConfigMap) (d : ConfigMap) (k : String)
    (dm um : ConfigMap) (hnd : (keysOf u).Nodup)
    (hd : lookupKey d k = some (.map dm)) (hu : lookupKey u k = some (.map um)) :
    lookupKey (mergeConfig d u) k = some (.map (mergeConfig dm um)) := by
  induction u generalizing d with
  | nil => simp [lookupKey] at hu
  | cons hd₁ tl ih =>
    obtain ⟨k₁, v⟩ := hd₁
    simp only [keysOf, List.map_cons, List.nodup_cons] at hnd
    by_cases h₁ : k₁ = k
    · subst h₁
      simp only [lookupKey, if_true, eq_self_iff_true] at hu
      rw [Option.some.injEq] at hu
      subst hu
      rw [mergeConfig]
      have hk : k₁ ∉ keysOf tl := hnd.1
      rw [lookupKey_mergeConfig_not_mem tl _ _ hk, lookupKey_setKey]
      have hboth : bothMaps (lookupKey d k₁) (.map um) = some (dm, um) := by
        rw [hd]; rfl
      rw [hboth]
      simp
    · simp only [lookupKey, if_neg h₁] at hu
      rw [mergeConfig]
      exact ih _ hnd.2 (by rw [lookupKey_setKey, if_neg h₁]; exact hd) hu

theorem lookupKey_mergeConfig_overwrite (u : ConfigMap) (d : ConfigMap) (k : String)
    (v : YVal) (hnd : (keysOf u).Nodup) (hu : lookupKey u k = some v)
    (hno : bothMaps (lookupKey d k) v = none) :
    lookupKey (mergeConfig d u) k = some v := by
  induction u generalizing d with
  | nil => simp [lookupKey] at hu
  | cons hd₁ tl ih =>
    obtain ⟨k₁, v₁⟩ := hd₁
    simp only [keysOf, List.map_cons, List.nodup_cons] at hnd
    by_cases h₁ : k₁ = k
    · subst h₁
      simp only [lookupKey, if_true, eq_self_iff_true] at hu
      rw [Option.some.injEq] at hu
      subst hu
      rw [mergeConfig]
      have hk : k₁ ∉ keysOf tl := hnd.1
      rw [lookupKey_mergeConfig_not_mem tl _ _ hk, lookupKey_setKey]
      rw [hno]
      simp
    · simp only [lookupKey, if_neg h₁] at hu
      rw [mergeConfig]
      exact ih _ hnd.2 hu (by rw [lookupKey_setKey, if_neg h₁]; exact hno)

theorem mem_keysOf_mergeConfig (u : ConfigMap) (d : ConfigMap) (a : String) :
    a ∈ keysOf (mergeConfig d u) ↔ a ∈ keysOf d ∨ a ∈ keysOf u := by
  induction u generalizing d with
  | nil => simp [mergeConfig, keysOf]
  | cons hd₁ tl ih =>
    obtain ⟨k₁, v⟩ := hd₁
    rw [mergeConfig, ih]
    rw [mem_keysOf_setKey]
    simp only [keysOf, List.map_cons, List.mem_cons]
    tauto

/-! ### Helper lemmas on data frames -/

theorem hasCol_iff_mem (df : DF) (c : String) : df.hasCol c = true ↔ c ∈ df.cols := by
  simp [DF.hasCol]

theorem convertCol_cols (df : DF) (conv : Cell → Int) (c : String) :
    (df.convertCol conv c).cols = df.cols := rfl

theorem renameCol_rows (df : DF) (old nw : String) :
    (df.renameCol old nw).rows = df.rows := rfl

theorem cellAt_set_self (r : List Cell) (i : Nat) (v : Cell) (h : i < r.length) :
    cellAt (r.set i v) i = v := by
  unfold cellAt
  rw [List.getD_eq_getElem?_getD, List.getElem?_set_self]
  · simp
  · simpa using h

theorem convertCol_timeAware (df : DF) (conv : Cell → Int) (c : String)
    (hwf : df.WF) (hc : c ∈ df.cols) :
    ∀ r ∈ (df.convertCol conv c).rows, ∃ t, cellAt r (df.cols.indexOf c) = Cell.tsUTC t := by
  intro r hr
  simp only [DF.convertCol] at hr
  rcases List.mem_map.1 hr with ⟨r₀, hr₀, rfl⟩
  refine ⟨conv (cellAt r₀ (df.cols.indexOf c)), ?_⟩
  apply cellAt_set_self
  rw [hwf r₀ hr₀]
  exact List.indexOf_lt_length.2 hc

theorem indexOf_rename (cols : List String) (old nw : String) (hnew : nw ∉ cols) :
    (cols.map (fun x => if x = old then nw else x)).indexOf nw = cols.indexOf old := by
  induction cols with
  | nil => rfl
  | cons h t ih =>
    have hne : h ≠ nw := fun he => hnew (he ▸ List.mem_cons_self h t)
    by_cases ho : h = old
    · subst ho
      simp [List.indexOf_cons]
    · have h1 : (h == nw) = false := beq_false_of_ne hne
      have h2 : (h == old) = false := beq_false_of_ne ho
      have ht : nw ∉ t := fun hm => hnew (List.mem_cons_of_mem _ hm)
      simp [List.indexOf_cons, if_neg ho, h1, h2, ih ht]

theorem mem_map_rename (cols : List String) (old nw : String) (ho : old ∈ cols) :
    nw ∈ cols.map (fun x => if x = old then nw else x) :=
  List.mem_map.2 ⟨old, ho, by simp⟩

theorem sortValues_ok (df : DF) (c : String) (df' : DF) (h : df.sortValues c = .ok df') :
    df.hasCol c = true ∧ df'.cols = df.cols ∧ (∀ r ∈ df'.rows, r ∈ df.rows) ∧
    df'.rows.Sorted (rowLe (df.colIdx c)) := by
  unfold DF.sortValues at h
  by_cases hc : df.hasCol c = true
  · rw [if_pos hc] at h
    simp only [Except.ok.injEq] at h
    subst h
    refine ⟨hc, rfl, ?_, ?_⟩
    · intro r hr
      exact (List.perm_insertionSort _ df.rows).subset hr
    · exact List.sorted_insertionSort _ df.rows
  · rw [if_neg hc] at h
    exact absurd h (by simp)

theorem normalizeTime_timeAware (conv : Cell → Int) (df : DF) (hwf : df.WF)
    (hcol : (normalizeTime conv df).hasCol "time" = true) :
    ∀ r ∈ (normalizeTime conv df).rows,
      ∃ t, cellAt r ((normalizeTime conv df).colIdx "time") = Cell.tsUTC t := by
  unfold normalizeTime at hcol ⊢
  by_cases h1 : df.hasCol "time" = true
  · simp only [h1, if_true]
    exact convertCol_timeAware df conv "time" hwf ((hasCol_iff_mem df "time").1 h1)
  · have hnmem : "time" ∉ df.cols := fun hm => h1 ((hasCol_iff_mem df "time").2 hm)
    by_cases h2 : df.hasCol "date" = true
    · simp only [h1, h2, if_true, if_false, Bool.false_eq_true]
      have hidx : ((df.convertCol conv "date").renameCol "date" "time").colIdx "time" =
          df.cols.indexOf "date" := by
        simp only [DF.colIdx, DF.renameCol, convertCol_cols]
        exact indexOf_rename df.cols "date" "time" hnmem
      rw [hidx]
      exact convertCol_timeAware df conv "date" hwf ((hasCol_iff_mem df "date").1 h2)
    · by_cases h3 : df.hasCol "Date" = true
      · simp only [h1, h2, h3, if_true, if_false, Bool.false_eq_true]
        have hidx : ((df.convertCol conv "Date").renameCol "Date" "time").colIdx "time" =
            df.cols.indexOf "Date" := by
          simp only [DF.colIdx, DF.renameCol, convertCol_cols]
          exact indexOf_rename df.cols "Date" "time" hnmem
        rw [hidx]
        exact convertCol_timeAware df conv "Date" hwf ((hasCol_iff_mem df "Date").1 h3)
      · simp only [h1, h2, h3, if_false, Bool.false_eq_true] at hcol

/-- Evaluation of the merge of the `trading.symbol == "QQQ"` override
over the defaults. -/
theorem mergeConfig_QQQ :
    mergeConfig defaultConfig [("trading", .map [("symbol", .s "QQQ")])] =
      [("trading", .map
          [("symbol", .s "QQQ"),
           ("timeframe", .s "D1"),
           ("lookback_days", .i 5000)]),
       ("features", .map
          [("horizon_days", .i 5),
           ("rsi_period", .i 14),
           ("ema_short", .i 20),
           ("ema_long", .i 50),
           ("atr_period", .i 14)]),
       ("model", .map
          [("n_estimators", .i 100),
           ("learning_rate", .dec 5 2),
           ("train_ratio", .dec 8 1),
           ("random_state", .i 42)]),
       ("backtest", .map
          [("initial_capital", .dec 1000 1),
           ("commission_rate", .dec 1 3),
           ("slippage", .dec 1 4)])] := by
  simp [mergeConfig, lookupKey, bothMaps, setKey, defaultConfig]

/-! ### Claim theorems -/

/-- C1: `get_project_root` examines the start directory and its first
four ancestors in order from nearest to farthest and returns, resolved,
the first one containing a `requirements.txt` file, a `data/raw`
directory, a `models` directory or a `src` directory; when none of the
five contains a marker it returns the resolved start directory itself
(the function is total, so it never fails). Stated as the exhaustive
case split over the five marker tests, nearest first. -/
theorem get_project_root_first_marker (fs : FS) (start : Path) :
    (hasMarker fs start = true ∧
       get_project_root fs start = fs.resolve start) ∨
    (hasMarker fs start = false ∧ hasMarker fs start.parent = true ∧
       get_project_root fs start = fs.resolve start.parent) ∨
    (hasMarker fs start = false ∧ hasMarker fs start.parent = false ∧
       hasMarker fs start.parent.parent = true ∧
       get_project_root fs start = fs.resolve start.parent.parent) ∨
    (hasMarker fs start = false ∧ hasMarker fs start.parent = false ∧
       hasMarker fs start.parent.parent = false ∧
       hasMarker fs start.parent.parent.parent = true ∧
       get_project_root fs start = fs.resolve start.parent.parent.parent) ∨
    (hasMarker fs start = false ∧ hasMarker fs start.parent = false ∧
       hasMarker fs start.parent.parent = false ∧
       hasMarker fs start.parent.parent.parent = false ∧
       hasMarker fs start.parent.parent.parent.parent = true ∧
       get_project_root fs start = fs.resolve start.parent.parent.parent.parent) ∨
    (hasMarker fs start = false ∧ hasMarker fs start.parent = false ∧
       hasMarker fs start.parent.parent = false ∧
       hasMarker fs start.parent.parent.parent = false ∧
       hasMarker fs start.parent.parent.parent.parent = false ∧
       get_project_root fs start = fs.resolve start) := by
  unfold get_project_root rootCandidates
  cases h0 : hasMarker fs start <;>
    cases h1 : hasMarker fs start.parent <;>
      cases h2 : hasMarker fs start.parent.parent <;>
        cases h3 : hasMarker fs start.parent.parent.parent <;>
          cases h4 : hasMarker fs start.parent.parent.parent.parent <;>
            simp [List.find?, h0, h1, h2, h3, h4]

/-- C9: `load_config` called with an explicitly supplied path that does
not exist returns the default configuration (it does not raise a
not-found error). -/
theorem load_config_missing_explicit_path (env : ConfigEnv) (p : Path)
    (h : env.fexists p = false) :
    load_config env (some p) = defaultConfig := by
  unfold load_config
  simp [h]

/-- Witness for C9 at a concrete environment and path. -/
theorem load_config_missing_explicit_path_witness :
    load_config
      { fexists := fun _ => false, resolve := id, cwd := [], parse := fun _ => none }
      (some ["no", "such", "config.yaml"]) = defaultConfig :=
  load_config_missing_explicit_path _ _ rfl

/-- C10: the top-level key set of `_merge_config default user` is the
union of the key sets of `default` and `user` (no key of either side is
dropped); consequently every configuration returned by `load_config`
contains every top-level section of the default configuration. -/
theorem mergeConfig_keys_union :
    (∀ (d u : ConfigMap) (a : String),
       a ∈ keysOf (mergeConfig d u) ↔ a ∈ keysOf d ∨ a ∈ keysOf u) ∧
    (∀ (env : ConfigEnv) (cp : Option Path) (a : String),
       a ∈ keysOf defaultConfig → a ∈ keysOf (load_config env cp)) := by
  refine ⟨fun d u a => mem_keysOf_mergeConfig u d a, ?_⟩
  intro env cp a ha
  unfold load_config
  cases hcp : (match cp with
     | some p => some p
     | none =>
       (configCandidates (get_project_root env.toFS env.cwd)).find? env.fexists) with
  | none => exact ha
  | some p =>
    by_cases he : env.fexists p = true
    · simp only [he, if_true]
      exact (mem_keysOf_mergeConfig _ _ a).2 (Or.inl ha)
    · simp only [Bool.not_eq_true] at he
      simp [he, ha]

/-- Witness for C10's second conjunct: a configuration loaded from a
filesystem with no config file anywhere keeps the `trading` section. -/
theorem mergeConfig_keys_union_witness :
    "trading" ∈ keysOf (load_config
      { fexists := fun _ => false, resolve := id, cwd := [], parse := fun _ => none }
      none) :=
  mergeConfig_keys_union.2 _ none "trading" (by simp [defaultConfig, keysOf])

/-- C3: with no path supplied, `load_config` probes exactly the three
candidate locations `root/config.yaml`, `root/config/config.yaml`,
`root/config/config.example.yaml` in that priority order and uses the
first that exists (merging its parse over the defaults); when none of
the three exists, or the chosen file parses to nothing, the result is
the default configuration unchanged. -/
theorem load_config_probe_order (env : ConfigEnv) :
    (let root := get_project_root env.toFS env.cwd
     let p1 := root ++ ["config.yaml"]
     let p2 := root ++ ["config", "config.yaml"]
     let p3 := root ++ ["config", "config.example.yaml"]
     (env.fexists p1 = true ∧
        load_config env none = mergeConfig defaultConfig ((env.parse p1).getD [])) ∨
     (env.fexists p1 = false ∧ env.fexists p2 = true ∧
        load_config env none = mergeConfig defaultConfig ((env.parse p2).getD [])) ∨
     (env.fexists p1 = false ∧ env.fexists p2 = false ∧ env.fexists p3 = true ∧
        load_config env none = mergeConfig defaultConfig ((env.parse p3).getD [])) ∨
     (env.fexists p1 = false ∧ env.fexists p2 = false ∧ env.fexists p3 = false ∧
        load_config env none = defaultConfig)) ∧
    (∀ p, (configCandidates (get_project_root env.toFS env.cwd)).find? env.fexists = some p →
       env.parse p = none → load_config env none = defaultConfig) := by
  constructor
  · unfold load_config configCandidates
    cases h1 : env.fexists (get_project_root env.toFS env.cwd ++ ["config.yaml"]) <;>
      cases h2 : env.fexists (get_project_root env.toFS env.cwd ++ ["config", "config.yaml"]) <;>
        cases h3 : env.fexists
            (get_project_root env.toFS env.cwd ++ ["config", "config.example.yaml"]) <;>
          simp [List.find?, h1, h2, h3]
  · intro p hfind hparse
    have hex : env.fexists p = true := List.find?_some hfind
    unfold load_config
    rw [hfind]
    simp only [hex, if_true, hparse, Option.getD_none]
    exact mergeConfig_nil defaultConfig

/-- Witness for C3's empty-parse conjunct: a filesystem where every path
exists but the config file parses to nothing yields the defaults. -/
theorem load_config_probe_order_witness :
    load_config
      { fexists := fun _ => true, resolve := id, cwd := [], parse := fun _ => none }
      none = defaultConfig :=
  (load_config_probe_order _).2 ["config.yaml"] rfl rfl

/-- C2: the merge of `_merge_config` keeps the default value of every
key the user mapping does not mention, merges recursively at a key
whose default and user values are both mappings, overwrites wholesale
at every other user key; and merging a user mapping overriding
`trading.symbol` to `"QQQ"` over the defaults yields
`trading.symbol == "QQQ"` with every other default key untouched. -/
theorem mergeConfig_spec :
    (∀ (d u : ConfigMap) (k : String), k ∉ keysOf u →
       lookupKey (mergeConfig d u) k = lookupKey d k) ∧
    (∀ (d u : ConfigMap) (k : String) (dm um : ConfigMap), (keysOf u).Nodup →
       lookupKey d k = some (.map dm) → lookupKey u k = some (.map um) →
       lookupKey (mergeConfig d u) k = some (.map (mergeConfig dm um))) ∧
    (∀ (d u : ConfigMap) (k : String) (v : YVal), (keysOf u).Nodup →
       lookupKey u k = some v → bothMaps (lookupKey d k) v = none →
       lookupKey (mergeConfig d u) k = some v) ∧
    get_config_value (mergeConfig defaultConfig [("trading", .map [("symbol", .s "QQQ")])])
        "trading.symbol" (.s "") = .s "QQQ" ∧
    (∀ pq ∈ (["trading.timeframe", "trading.lookback_days", "features.horizon_days",
              "features.rsi_period", "features.ema_short", "features.ema_long",
              "features.atr_period", "model.n_estimators", "model.learning_rate",
              "model.train_ratio", "model.random_state", "backtest.initial_capital",
              "backtest.commission_rate", "backtest.slippage"] : List String),
       get_config_value (mergeConfig defaultConfig [("trading", .map [("symbol", .s "QQQ")])])
           pq (.s "") =
         get_config_value defaultConfig pq (.s "")) := by
  refine ⟨fun d u k hk => lookupKey_mergeConfig_not_mem u d k hk,
          fun d u k dm um hnd hd hu => lookupKey_mergeConfig_both_maps u d k dm um hnd hd hu,
          fun d u k v hnd hu hno => lookupKey_mergeConfig_overwrite u d k v hnd hu hno,
          ?_, ?_⟩
  · rw [mergeConfig_QQQ]; rfl
  · intro pq hpq
    fin_cases hpq <;> rw [mergeConfig_QQQ] <;> rfl

/-- Witness for C2: the three general merge rules applied at concrete
mappings. -/
theorem mergeConfig_spec_witness :
    lookupKey (mergeConfig [("a", .i 1)] [("b", .i 2)]) "a" = some (.i 1) ∧
    lookupKey (mergeConfig [("t", .map [("x", .i 1)])] [("t", .map [("y", .i 2)])]) "t" =
      some (.map (mergeConfig [("x", .i 1)] [("y", .i 2)])) ∧
    lookupKey (mergeConfig [("a", .i 1)] [("a", .s "x")]) "a" = some (.s "x") :=
  ⟨mergeConfig_spec.1 [("a", .i 1)] [("b", .i 2)] "a" (by simp [keysOf]),
   mergeConfig_spec.2.1 [("t", .map [("x", .i 1)])] [("t", .map [("y", .i 2)])] "t"
     [("x", .i 1)] [("y", .i 2)] (by simp [keysOf]) rfl rfl,
   mergeConfig_spec.2.2.1 [("a", .i 1)] [("a", .s "x")] "a" (.s "x")
     (by simp [keysOf]) rfl rfl⟩

/-- C4: `get_config_value` splits the dot-path and walks the nested
mappings key by key, stepping into present keys, returning the default
the moment a key is absent or the current value is not a mapping, and
the reached value after the last key; with the two concrete examples of
the specification. -/
theorem get_config_value_spec :
    (∀ (config : ConfigMap) (key_path : String) (default : YVal),
       get_config_value config key_path default =
         walkKeys default (splitDot key_path) (.map config)) ∧
    (∀ (default v : YVal), walkKeys default [] v = v) ∧
    (∀ (default : YVal) (k : String) (rest : List String) (m : ConfigMap),
       lookupKey m k = none → walkKeys default (k :: rest) (.map m) = default) ∧
    (∀ (default : YVal) (k : String) (rest : List String) (m : ConfigMap) (v : YVal),
       lookupKey m k = some v →
       walkKeys default (k :: rest) (.map m) = walkKeys default rest v) ∧
    (∀ (default : YVal) (k : String) (rest : List String) (v : YVal),
       (∀ m, v ≠ .map m) → walkKeys default (k :: rest) v = default) ∧
    get_config_value [("a", .map [("b", .i 5)])] "a.b" (.i 0) = .i 5 ∧
    get_config_value [("a", .map [])] "a.b.c" (.i (-1)) = .i (-1) := by
  refine ⟨fun _ _ _ => rfl, fun _ _ => rfl, ?_, ?_, ?_, rfl, rfl⟩
  · intro default k rest m h
    simp [walkKeys, h]
  · intro default k rest m v h
    simp [walkKeys, h]
  · intro default k rest v h
    cases v with
    | map m => exact absurd rfl (h m)
    | s a => rfl
    | i a => rfl
    | dec a b => rfl

/-- Witness for C4: the absent-key, present-key and non-mapping rules at
concrete values. -/
theorem get_config_value_spec_witness :
    walkKeys (.i 7) ["z"] (.map []) = .i 7 ∧
    walkKeys (.i 7) ["z"] (.map [("z", .i 3)]) = walkKeys (.i 7) [] (.i 3) ∧
    walkKeys (.i 7) ["z"] (.s "leaf") = .i 7 :=
  ⟨get_config_value_spec.2.2.1 (.i 7) "z" [] [] rfl,
   get_config_value_spec.2.2.2.1 (.i 7) "z" [] [("z", .i 3)] (.i 3) rfl,
   get_config_value_spec.2.2.2.2.1 (.i 7) "z" [] (.s "leaf") (by intro m h; cases h)⟩

/-- A frame obtained from a successful `sort_values("time")` whose input
rows all carry timestamps in the time column is time-aware and
time-sorted. -/
theorem sorted_frame_props (df1 df' : DF) (hs : df1.sortValues "time" = .ok df')
    (haware : ∀ r ∈ df1.rows, ∃ t, cellAt r (df1.colIdx "time") = Cell.tsUTC t) :
    df'.timeAware ∧ df'.timeSorted := by
  obtain ⟨hc, hcols, hmem, hsorted⟩ := sortValues_ok df1 "time" df' hs
  have hidx : df'.colIdx "time" = df1.colIdx "time" := by simp [DF.colIdx, hcols]
  constructor
  · intro r hr
    rw [hidx]
    exact haware r (hmem r hr)
  · unfold DF.timeSorted
    rw [hidx]
    exact hsorted

/-- C8: every table returned successfully by `load_raw_data` or
`load_processed_data` has its rows sorted ascending by the `time`
column, and every cell of that column is a timezone-aware timestamp. -/
theorem loaded_frames_sorted_and_timeAware (conv : Cell → Int) (df df' : DF) (hwf : df.WF)
    (h : load_raw_data_frame conv df = .ok df' ∨ load_processed_frame conv df = .ok df') :
    df'.timeAware ∧ df'.timeSorted := by
  rcases h with h | h
  · unfold load_raw_data_frame at h
    dsimp only at h
    cases hs : (normalizeTime conv df).sortValues "time" with
    | error e =>
      rw [hs] at h
      simp [Bind.bind, Except.bind] at h
    | ok df2 =>
      rw [hs] at h
      simp only [Bind.bind, Except.bind] at h
      by_cases hm :
          (requiredCols.filter fun c => ¬ df2.hasCol c = true).isEmpty = true
      · rw [if_pos hm] at h
        have hdf : df2 = df' := by
          simpa [pure, Except.pure] using h
        subst hdf
        have hcol : (normalizeTime conv df).hasCol "time" = true :=
          (sortValues_ok _ "time" df2 hs).1
        exact sorted_frame_props _ df2 hs (normalizeTime_timeAware conv df hwf hcol)
      · rw [if_neg hm] at h
        simp [throw, throwThe, MonadExceptOf.throw] at h
  · unfold load_processed_frame at h
    dsimp only at h
    by_cases ht : df.hasCol "time" = true
    · simp only [ht, if_true] at h
      refine sorted_frame_props _ df' h ?_
      exact convertCol_timeAware df conv "time" hwf ((hasCol_iff_mem df "time").1 ht)
    · simp only [ht, if_false, Bool.false_eq_true] at h
      exact absurd (sortValues_ok df "time" df' h).1 ht

/-- Witness for C8: a processed frame with an unsorted numeric time
column loads into a sorted, timezone-aware result. -/
theorem loaded_frames_sorted_and_timeAware_witness :
    DF.timeAware ⟨["time"], [[.tsUTC 3], [.tsUTC 5]]⟩ ∧
    DF.timeSorted ⟨["time"], [[.tsUTC 3], [.tsUTC 5]]⟩ :=
  loaded_frames_sorted_and_timeAware cellKey ⟨["time"], [[.n 5], [.n 3]]⟩
    ⟨["time"], [[.tsUTC 3], [.tsUTC 5]]⟩
    (by intro r hr; fin_cases hr <;> rfl)
    (Or.inr (by rfl))

/-- C5 (evaluations): a raw CSV with a `time` column but no `close`
column fails with the validation error naming exactly `["close"]`, as
the claim's example states; but a raw CSV with no time-like column at
all fails with `KeyError("time")` raised by `sort_values` (line 72 of
src/utils/data_loader.py, which runs before the validation of lines
74-78), not with a validation error naming `["time"]`. -/
theorem load_raw_data_frame_eval :
    load_raw_data_frame (fun _ => 0)
        ⟨["time", "open", "high", "low"], [[.s "t", .n 2, .n 3, .n 4]]⟩ =
      .error (.missingColumns ["close"]) ∧
    load_raw_data_frame (fun _ => 0)
        ⟨["open", "high", "low", "close"], [[.n 1, .n 2, .n 3, .n 4]]⟩ =
      .error (.keyError "time") :=
  ⟨rfl, rfl⟩

/-- C6 (evaluations): `load_processed_data` on a parsed CSV with a
`time` column succeeds, but on a parsed CSV without one it raises
`KeyError("time")` from the unconditional `sort_values` of line 116 of
src/utils/data_loader.py instead of returning the table as-is. -/
theorem load_processed_frame_eval :
    load_processed_frame (fun _ => 0) ⟨["time", "a"], [[.n 2, .n 1]]⟩ =
      .ok ⟨["time", "a"], [[.tsUTC 0, .n 1]]⟩ ∧
    load_processed_frame (fun _ => 0) ⟨["a", "b"], [[.s "x", .n 1]]⟩ =
      .error (.keyError "time") :=
  ⟨rfl, rfl⟩

/-- C7: the candidate walk of `load_trained_model` skips non-existent
paths, skips `.json` candidates when xgboost is unavailable, skips any
candidate whose load attempt fails, returns the first successful load
tagged `"xgboost"` (`.json`) or `"sklearn"` (`.pkl`), fails with the
not-found error enumerating the two primary expected paths when all
candidates are exhausted, and — concretely — with a corrupt `.json`
candidate listed before a valid `.pkl` candidate it returns the `.pkl`
model tagged `"sklearn"`. -/
theorem load_trained_model_spec :
    (∀ (M : Type) (env : ModelEnv M) (p : Path) (rest : List Path),
       env.fexists p = false → modelSearch env (p :: rest) = modelSearch env rest) ∧
    (∀ (M : Type) (env : ModelEnv M) (p : Path) (rest : List Path),
       Path.suffix p = ".json" → env.xgboostAvailable = false →
       modelSearch env (p :: rest) = modelSearch env rest) ∧
    (∀ (M : Type) (env : ModelEnv M) (p : Path) (rest : List Path),
       Path.suffix p = ".json" → env.xgbLoad p = none →
       modelSearch env (p :: rest) = modelSearch env rest) ∧
    (∀ (M : Type) (env : ModelEnv M) (p : Path) (rest : List Path) (m : M),
       env.fexists p = true → Path.suffix p = ".json" → env.xgboostAvailable = true →
       env.xgbLoad p = some m → modelSearch env (p :: rest) = some (m, "xgboost")) ∧
    (∀ (M : Type) (env : ModelEnv M) (p : Path) (rest : List Path),
       Path.suffix p = ".pkl" → env.joblibLoad p = none →
       modelSearch env (p :: rest) = modelSearch env rest) ∧
    (∀ (M : Type) (env : ModelEnv M) (p : Path) (rest : List Path) (m : M),
       env.fexists p = true → Path.suffix p = ".pkl" → env.joblibLoad p = some m →
       modelSearch env (p :: rest) = some (m, "sklearn")) ∧
    (∀ (M : Type) (env : ModelEnv M) (name : String) (mp : Option Path),
       modelSearch env
           (match mp with
            | some p => [p]
            | none => modelCandidates env.toFS env.cwd name) = none →
       load_trained_model env name mp =
         .error (.notFound
           (get_project_root env.toFS env.cwd ++ ["models", name ++ ".pkl"])
           (get_project_root env.toFS env.cwd ++ ["models", name ++ ".json"]))) ∧
    (∀ (M : Type) (env : ModelEnv M) (name : String) (mp : Option Path) (res : M × String),
       modelSearch env
           (match mp with
            | some p => [p]
            | none => modelCandidates env.toFS env.cwd name) = some res →
       load_trained_model env name mp = .ok res) ∧
    load_trained_model (M := Nat)
      { fexists := fun p => (p == ["models", "m.json"]) || (p == ["..", "models", "m.pkl"]),
        resolve := id, cwd := [], xgboostAvailable := true,
        xgbLoad := fun _ => none, joblibLoad := fun _ => some 7 }
      "m" none = .ok (7, "sklearn") := by
  refine ⟨?_, ?_, ?_, ?_, ?_, ?_, ?_, ?_, ?_⟩
  · intro M env p rest h
    simp [modelSearch, h]
  · intro M env p rest h1 h2
    cases hf : env.fexists p <;> simp [modelSearch, hf, h1, h2]
  · intro M env p rest h1 h2
    cases hf : env.fexists p <;>
      cases ha : env.xgboostAvailable <;> simp [modelSearch, hf, ha, h1, h2]
  · intro M env p rest m h1 h2 h3 h4
    simp [modelSearch, h1, h2, h3, h4]
  · intro M env p rest h1 h2
    have hjson : Path.suffix p ≠ ".json" := by rw [h1]; decide
    cases hf : env.fexists p <;> simp [modelSearch, hf, h1, h2, hjson]
  · intro M env p rest m h1 h2 h3
    have hjson : Path.suffix p ≠ ".json" := by rw [h2]; decide
    simp [modelSearch, h1, h2, h3, hjson]
  · intro M env name mp h
    unfold load_trained_model
    dsimp only
    rw [h]
  · intro M env name mp res h
    unfold load_trained_model
    dsimp only
    rw [h]
  · rfl

/-- Witness for C7: a filesystem with no model file at all exhausts
every candidate and produces the not-found error with the two primary
expected paths. -/
theorem load_trained_model_spec_witness :
    load_trained_model (M := Nat)
      { fexists := fun _ => false, resolve := id, cwd := [],
        xgboostAvailable := false, xgbLoad := fun _ => none, joblibLoad := fun _ => none }
      "m" none =
      .error (.notFound ["models", "m.pkl"] ["models", "m.json"]) :=
  load_trained_model_spec.2.2.2.2.2.2.1 Nat
    { fexists := fun _ => false, resolve := id, cwd := [],
      xgboostAvailable := false, xgbLoad := fun _ => none, joblibLoad := fun _ => none }
    "m" none rfl

end TradingLab
